import Mathlib

/-!
# Verification of the resumable-crawl / checkpoint / merge core of the
# hotel-brands-scraper repository

Shallow embedding of the checkpoint, record-merge, retry/backoff and
resume-walk logic of the four scrapers (`ihg.py`, `hilton.py`, `hyatt.py`,
`marriott.py`).  The browser/DOM layer is treated as an external
collaborator: pages, cards and their extracted fields enter the model as
input data, exactly as the specification prescribes.  All file-system
effects (checkpoint files, JSON outputs) are modelled by explicit state
passing.
-/

namespace Spec2Proof

/-! ## Scalar field values

A scraped field value is either Python `None` (also covering a key that is
absent from the record dict, which `dict.get` reports as `None`) or a
string.  `ihg.py` treats `None`, `""` and the literal string `"null"` as
"missing" in its merge (`append_or_merge`, line 1065). -/

inductive Value where
  | absent : Value
  | str : String → Value
deriving DecidableEq, Repr

/-- The test `x in [None, "", "null"]` from `append_or_merge` (ihg.py:1065). -/
def isMissing : Value → Bool
  | Value.absent => true
  | Value.str s => s == "" || s == "null"

/-! ## Records

The IHG record schema (`FIELDS`, ihg.py:48-67).  A `Rec` maps each field to
its value; a field that a record dict does not contain is mapped to
`Value.absent` (indistinguishable from a stored `None` for every operation
modelled here, since `dict.get` returns `None` for both and the merge never
copies a missing incoming value). -/

inductive Field where
  | hotel_code | hotel_name | address | city | state | country
  | phone | rating | description | card_price
  | overview_table_json | pets_json | parking_json | amenities_json
  | nearby_json | airport_json | is_pet_friendly | last_updated
deriving DecidableEq, Fintype, Repr

abbrev Rec : Type := Field → Value

/-- Build a record holding only the two identity fields. -/
def mkRec (code name : String) : Rec := fun f =>
  match f with
  | Field.hotel_code => Value.str code
  | Field.hotel_name => Value.str name
  | _ => Value.absent

/-- Update one field of a record. -/
def setField (r : Rec) (f0 : Field) (v : Value) : Rec := fun f =>
  if f = f0 then v else r f

/-- The identity key `(h.get("hotel_code"), h.get("hotel_name"))`
(ihg.py:1060). -/
abbrev Key : Type := Value × Value

def keyOf (r : Rec) : Key := (r Field.hotel_code, r Field.hotel_name)

/-! ## Python dicts keyed by identity

`existing_map` / `result_map` in ihg.py are Python dicts; insertion order
is preserved, and assigning to an existing key updates the stored value in
place.  We model them as association lists. -/

abbrev Dict : Type := List (Key × Rec)

/-- `key in d` / `d[key]` (first — and in a real dict, only — binding). -/
def dictLookup? : Dict → Key → Option Rec
  | [], _ => none
  | p :: rest, k => if p.1 = k then some p.2 else dictLookup? rest k

/-- `d[key] = v`: update in place if the key is bound, else append. -/
def dictInsert : Dict → Key → Rec → Dict
  | [], k, v => [(k, v)]
  | p :: rest, k, v =>
      if p.1 = k then (k, v) :: rest else p :: dictInsert rest k v

/-- `list(d.values())`. -/
def dictValues (d : Dict) : List Rec := d.map Prod.snd

/-- Module constant `OVERWRITE = False` (ihg.py:43). -/
def OVERWRITE : Bool := false

/-- The inner per-field merge of `append_or_merge` (ihg.py:1063-1066):
`merged = dict(existing)`, then for every incoming item `(k, v)`, replace
`merged[k]` by `v` exactly when the existing value is in
`[None, "", "null"]` and `v` is not. -/
def mergeInto (existing incoming : Rec) : Rec := fun f =>
  if isMissing (existing f) && !isMissing (incoming f) then incoming f
  else existing f

/-- One iteration of the `for h in hotels` loop of `append_or_merge`
(ihg.py:1059-1069). -/
def mergeStep (rm : Dict) (h : Rec) : Dict :=
  let key := keyOf h
  match dictLookup? rm key with
  | some old =>
      if OVERWRITE then dictInsert rm key h
      else dictInsert rm key (mergeInto old h)
  | none => dictInsert rm key h

/-- `append_or_merge(hotels, existing_map)` (ihg.py:1057-1070). -/
def append_or_merge (hotels : List Rec) (existing_map : Dict) : List Rec :=
  dictValues (hotels.foldl mergeStep existing_map)

/-! ### Basic merge lemmas -/

theorem mergeInto_self (r : Rec) : mergeInto r r = r := by
  funext f
  simp [mergeInto]

theorem dictLookup?_mem {m : Dict} {k : Key} {r : Rec}
    (h : dictLookup? m k = some r) : (k, r) ∈ m := by
  induction m with
  | nil => simp [dictLookup?] at h
  | cons p rest ih =>
      obtain ⟨k1, v1⟩ := p
      by_cases hk : k1 = k
      · subst hk
        simp [dictLookup?] at h
        subst h
        exact List.mem_cons_self _ _
      · simp [dictLookup?, hk] at h
        exact List.mem_cons_of_mem _ (ih h)

theorem dictInsert_lookup_self {m : Dict} {k : Key} {r : Rec}
    (h : dictLookup? m k = some r) : dictInsert m k r = m := by
  induction m with
  | nil => simp [dictLookup?] at h
  | cons p rest ih =>
      obtain ⟨k1, v1⟩ := p
      by_cases hk : k1 = k
      · subst hk
        simp [dictLookup?] at h
        subst h
        simp [dictInsert]
      · simp [dictLookup?, hk] at h
        simp [dictInsert, hk, ih h]

theorem mem_dictInsert {m : Dict} {k : Key} {v : Rec} {p : Key × Rec}
    (h : p ∈ dictInsert m k v) : p ∈ m ∨ p = (k, v) := by
  induction m with
  | nil => simp [dictInsert] at h; right; exact h
  | cons q rest ih =>
      by_cases hk : q.1 = k
      · simp [dictInsert, hk] at h
        rcases h with h | h
        · right; exact h
        · left; exact List.mem_cons_of_mem _ h
      · simp [dictInsert, hk] at h
        rcases h with h | h
        · left; simp [h]
        · rcases ih h with h' | h'
          · left; exact List.mem_cons_of_mem _ h'
          · right; exact h'

theorem dictInsert_keys_of_lookup {m : Dict} {k : Key} {r v : Rec}
    (h : dictLookup? m k = some r) :
    (dictInsert m k v).map Prod.fst = m.map Prod.fst := by
  induction m with
  | nil => simp [dictLookup?] at h
  | cons q rest ih =>
      by_cases hk : q.1 = k
      · simp [dictInsert, hk]
      · simp [dictLookup?, hk] at h
        simp [dictInsert, hk, ih h]

theorem dictInsert_of_lookup_none {m : Dict} {k : Key} {v : Rec}
    (h : dictLookup? m k = none) : dictInsert m k v = m ++ [(k, v)] := by
  induction m with
  | nil => simp [dictInsert]
  | cons q rest ih =>
      by_cases hk : q.1 = k
      · simp [dictLookup?, hk] at h
      · simp [dictLookup?, hk] at h
        simp [dictInsert, hk, ih h]

theorem lookup_none_not_key {m : Dict} {k : Key}
    (h : dictLookup? m k = none) : k ∉ m.map Prod.fst := by
  induction m with
  | nil => simp
  | cons q rest ih =>
      by_cases hk : q.1 = k
      · simp [dictLookup?, hk] at h
      · simp [dictLookup?, hk] at h
        simp [ih h]
        intro he
        exact hk he.symm

/-- The merged record of two records sharing an identity key keeps that
key: each key field of `mergeInto e h` is either `e`'s or `h`'s value,
and those agree. -/
theorem keyOf_mergeInto {e h : Rec} (hk : keyOf e = keyOf h) :
    keyOf (mergeInto e h) = keyOf h := by
  have hc : e Field.hotel_code = h Field.hotel_code :=
    congrArg Prod.fst hk
  have hn : e Field.hotel_name = h Field.hotel_name :=
    congrArg Prod.snd hk
  unfold keyOf mergeInto
  rw [Prod.ext_iff]
  constructor
  · show (if _ then h Field.hotel_code else e Field.hotel_code) = _
    split
    · rfl
    · exact hc
  · show (if _ then h Field.hotel_name else e Field.hotel_name) = _
    split
    · rfl
    · exact hn

/-- Well-formedness of an identity-keyed map, as built by
`{(h.get('hotel_code'), h.get('hotel_name')): h for h in all_hotels}`
(ihg.py:1145): every binding's key is the identity key of its record, and
the keys are unique. -/
abbrev keyConsistent (m : Dict) : Prop := ∀ p ∈ m, keyOf p.2 = p.1

abbrev keysNodup (m : Dict) : Prop := (m.map Prod.fst).Nodup

theorem mergeStep_eq_some {m : Dict} {h old : Rec}
    (hl : dictLookup? m (keyOf h) = some old) :
    mergeStep m h = dictInsert m (keyOf h) (mergeInto old h) := by
  simp [mergeStep, hl, OVERWRITE]

theorem mergeStep_eq_none {m : Dict} {h : Rec}
    (hl : dictLookup? m (keyOf h) = none) :
    mergeStep m h = dictInsert m (keyOf h) h := by
  simp [mergeStep, hl]

theorem mergeStep_keyConsistent {m : Dict} {h : Rec}
    (hc : keyConsistent m) : keyConsistent (mergeStep m h) := by
  intro p hp
  cases hl : dictLookup? m (keyOf h) with
  | some old =>
      rw [mergeStep_eq_some hl] at hp
      rcases mem_dictInsert hp with hm | he
      · exact hc p hm
      · subst he
        exact keyOf_mergeInto (hc _ (dictLookup?_mem hl))
  | none =>
      rw [mergeStep_eq_none hl] at hp
      rcases mem_dictInsert hp with hm | he
      · exact hc p hm
      · subst he; rfl

theorem mergeStep_keysNodup {m : Dict} {h : Rec}
    (hn : keysNodup m) : keysNodup (mergeStep m h) := by
  cases hl : dictLookup? m (keyOf h) with
  | some old =>
      rw [mergeStep_eq_some hl]
      unfold keysNodup
      rw [dictInsert_keys_of_lookup hl]
      exact hn
  | none =>
      rw [mergeStep_eq_none hl]
      unfold keysNodup
      rw [dictInsert_of_lookup_none hl]
      simp only [List.map_append, List.map_cons, List.map_nil]
      rw [List.nodup_append]
      refine ⟨hn, List.nodup_singleton _, ?_⟩
      intro a ha hb
      simp at hb
      subst hb
      exact lookup_none_not_key hl ha

theorem foldl_mergeStep_wf (hotels : List Rec) (m : Dict)
    (hc : keyConsistent m) (hn : keysNodup m) :
    keyConsistent (hotels.foldl mergeStep m) ∧
      keysNodup (hotels.foldl mergeStep m) := by
  induction hotels generalizing m with
  | nil => exact ⟨hc, hn⟩
  | cons h rest ih =>
      exact ih _ (mergeStep_keyConsistent hc) (mergeStep_keysNodup hn)

theorem wf_values_pairwise {m : Dict}
    (hc : keyConsistent m) (hn : keysNodup m) :
    (dictValues m).Pairwise (fun a b => keyOf a ≠ keyOf b) := by
  have hmap : m.map Prod.fst = m.map (fun p => keyOf p.2) := by
    apply List.map_congr_left
    intro p hp
    exact (hc p hp).symm
  unfold keysNodup at hn
  rw [hmap] at hn
  unfold List.Nodup at hn
  rw [List.pairwise_map] at hn
  unfold dictValues
  rw [List.pairwise_map]
  exact hn

/-! ## Concrete records used as witnesses and counterexamples -/

/-- Existing record: identity `("c","n")`, `phone` holding the empty
string, all other non-identity fields `None`. -/
def exMergeE : Rec := setField (mkRec "c" "n") Field.phone (Value.str "")

/-- Incoming record with the same identity and `phone = None`. -/
def exMergeH : Rec := mkRec "c" "n"

def exMergeMap : Dict := [((Value.str "c", Value.str "n"), exMergeE)]

def exIdemR : Rec := setField (mkRec "c" "n") Field.phone (Value.str "555-1234")

def exIdemMap : Dict := [(keyOf exIdemR, exIdemR)]

def exDupA : Rec := setField (mkRec "d" "m") Field.phone (Value.str "111")

def exDupB : Rec := setField (mkRec "d" "m") Field.rating (Value.str "4")

/-- C1 (amended): when the incoming record's identity key is already bound
to an existing record, `append_or_merge` replaces that binding with the
field-wise merge, and for each field the merged value is the existing
value whenever it is non-empty (not `None`, `""` or `"null"`); when the
existing value is empty it becomes the incoming value only if the incoming
value is itself non-empty, and otherwise the (empty) existing value is
kept. -/
theorem C1_fill_only_merge (m : Dict) (h e : Rec)
    (hl : dictLookup? m (keyOf h) = some e) :
    append_or_merge [h] m =
      dictValues (dictInsert m (keyOf h) (mergeInto e h)) ∧
    ∀ f, mergeInto e h f =
      if isMissing (e f) then (if isMissing (h f) then e f else h f)
      else e f := by
  constructor
  · unfold append_or_merge
    simp only [List.foldl_cons, List.foldl_nil]
    rw [mergeStep_eq_some hl]
  · intro f
    unfold mergeInto
    by_cases he : isMissing (e f) = true <;>
      by_cases hh : isMissing (h f) = true <;>
        simp [he, hh]

/-- C1 witness: the fill-only theorem applied to the concrete map binding
identity `("c","n")` to `exMergeE`. -/
theorem C1_fill_only_merge_witness :
    append_or_merge [exMergeH] exMergeMap =
      dictValues (dictInsert exMergeMap (keyOf exMergeH)
        (mergeInto exMergeE exMergeH)) :=
  (C1_fill_only_merge exMergeMap exMergeH exMergeE (by decide)).1

/-- C1 counterexample: the claim as stated says that whenever the existing
value is `None`/`""`/`"null"` the merged field equals the incoming value.
Merging an existing record whose `phone` is `""` with an incoming record
whose `phone` is `None` keeps the existing `""` (ihg.py:1065 also requires
the incoming value to be non-empty), so the merged `phone` is `""`, not
the incoming `None`. -/
theorem C1_counterexample :
    (append_or_merge [exMergeH] exMergeMap).map (fun r => r Field.phone) =
      [Value.str ""] ∧
    isMissing (exMergeE Field.phone) = true ∧
    exMergeH Field.phone = Value.absent ∧
    Value.str "" ≠ Value.absent := by
  refine ⟨by decide, by decide, by decide, by decide⟩

/-- C6: merging a one-element batch `[r]` into a map that already binds
`r`'s identity key to a record with identical field values returns the
map's records unchanged, in the same order. -/
theorem C6_idempotent_merge (m : Dict) (r : Rec)
    (hl : dictLookup? m (keyOf r) = some r) :
    append_or_merge [r] m = dictValues m := by
  unfold append_or_merge
  simp only [List.foldl_cons, List.foldl_nil]
  rw [mergeStep_eq_some hl, mergeInto_self, dictInsert_lookup_self hl]

/-- C6 witness: idempotence at a concrete one-record set. -/
theorem C6_idempotent_merge_witness :
    append_or_merge [exIdemR] exIdemMap = dictValues exIdemMap :=
  C6_idempotent_merge exIdemMap exIdemR (by decide)

/-- C7: starting from a well-formed identity-keyed map (each binding's key
is the identity key of its record, keys unique), the record list returned
by `append_or_merge` contains at most one record per identity key
`(hotel_code, hotel_name)`, for every incoming batch — including batches
in which several records share a key. -/
theorem C7_unique_identity_keys (m : Dict) (hotels : List Rec)
    (hc : keyConsistent m) (hn : keysNodup m) :
    (append_or_merge hotels m).Pairwise (fun a b => keyOf a ≠ keyOf b) := by
  obtain ⟨hc', hn'⟩ := foldl_mergeStep_wf hotels m hc hn
  exact wf_values_pairwise hc' hn'

/-- C7 witness: uniqueness for a concrete batch whose two incoming records
share the identity key `("d","m")`. -/
theorem C7_unique_identity_keys_witness :
    (append_or_merge [exDupA, exDupB] exIdemMap).Pairwise
      (fun a b => keyOf a ≠ keyOf b) :=
  C7_unique_identity_keys exIdemMap [exDupA, exDupB] (by decide) (by decide)

/-! ## Checkpoint files

A checkpoint file on disk is modelled as `Option (Option Json)`:
`none` — the file does not exist; `some none` — the file exists but its
contents are not valid JSON (so `json.load` raises `JSONDecodeError`);
`some (some j)` — the file parses to the JSON value `j`. -/

inductive Json where
  | null : Json
  | bool : Bool → Json
  | num : Int → Json
  | str : String → Json
  | arr : List Json → Json
  | obj : List (String × Json) → Json
deriving Repr

/-- Python `data.get(k, d)`: raises `AttributeError` when `data` is not a
dict. -/
def jsonGet (j : Json) (k : String) (d : Json) : Except String Json :=
  match j with
  | Json.obj kvs =>
      Except.ok (((kvs.find? (fun p => p.1 == k)).map Prod.snd).getD d)
  | _ => Except.error "AttributeError"

/-- Python `max(1, x)`: raises `TypeError` unless `x` is a number. -/
def pyMaxOne : Json → Except String Json
  | Json.num n => Except.ok (Json.num (max 1 n))
  | _ => Except.error "TypeError"

/-- `load_state()` (hilton.py:131-146).  When the state file exists its
contents are passed to `json.load` with no exception handler, so an
unparseable file propagates `JSONDecodeError` to the caller; an absent
file yields the zero position `(location_idx 0, page 1, hotel_idx 0)`.
The legacy field names `last_location_index`, `last_page` and
`last_card_index` are the fallback defaults (the inner `data.get` calls
are evaluated eagerly, as in Python). -/
def load_state (file : Option (Option Json)) :
    Except String (Json × Json × Json) :=
  match file with
  | none => Except.ok (Json.num 0, Json.num 1, Json.num 0)
  | some none => Except.error "JSONDecodeError"
  | some (some data) => do
      let li ← jsonGet data "last_location_index" (Json.num 0)
      let loc ← jsonGet data "location_idx" li
      let lp ← jsonGet data "last_page" (Json.num 1)
      let mp ← pyMaxOne lp
      let pg ← jsonGet data "page" mp
      let lc ← jsonGet data "last_card_index" (Json.num 0)
      let hi ← jsonGet data "hotel_idx" lc
      Except.ok (loc, pg, hi)

/-- `Checkpoint.load()` (hyatt.py:100-106).  `self.index` starts at `0`;
the body is wrapped in a bare `except: pass`, so an absent file, an
unparseable file, or a parsed value that is not a dict (whose `.get`
raises `AttributeError`) all leave the index at `0`.  The returned value
is the resulting `self.index`. -/
def Checkpoint.load (file : Option (Option Json)) : Json :=
  match file with
  | some (some (Json.obj kvs)) =>
      ((kvs.find? (fun p => p.1 == "last_hotel_index")).map Prod.snd).getD
        (Json.num 0)
  | _ => Json.num 0

/-- C2 (amended): Hyatt's `Checkpoint.load` yields index `0` without
raising both when the checkpoint file is absent and when it contains
invalid JSON; Hilton's `load_state` yields the zero position
`(location_idx 0, page 1, hotel_idx 0)` when the file is absent, but when
the file contains invalid JSON it propagates the JSON decode error instead
of returning. -/
theorem C2_checkpoint_load_graceful :
    Checkpoint.load none = Json.num 0 ∧
    Checkpoint.load (some none) = Json.num 0 ∧
    load_state none = Except.ok (Json.num 0, Json.num 1, Json.num 0) ∧
    load_state (some none) = Except.error "JSONDecodeError" :=
  ⟨rfl, rfl, rfl, rfl⟩

/-- C2 counterexample: on a checkpoint file containing invalid JSON,
Hilton's `load_state` raises (`json.load` at hilton.py:134 has no
exception handler) rather than returning the zero position as the claim
states. -/
theorem C2_counterexample :
    load_state (some none) = Except.error "JSONDecodeError" ∧
    load_state (some none) ≠
      Except.ok (Json.num 0, Json.num 1, Json.num 0) :=
  ⟨rfl, fun h => Except.noConfusion h⟩

/-! ## Retry wrappers

An operation under retry is modelled as a function from the 0-based
invocation number to a result: `Except.ok` — the call returns;
`Except.error msg` — the call raises an exception carrying `msg` (for
`retryable` this stands for one of the exception classes its `except`
clause catches).  Each wrapper returns the outcome paired with the number
of times the operation was invoked.  Sleeps and the soft page refresh are
side effects with no bearing on the result and are not modelled here. -/

inductive RetryOutcome (α : Type) where
  | ok : α → RetryOutcome α
  | raised : String → RetryOutcome α
  | retNone : RetryOutcome α
deriving DecidableEq, Repr

/-- `retry_action(action, retries, delay)` (hilton.py:245-252): try the
action up to `retries` times; every failure is printed and slept over; on
exhaustion a fresh generic `Exception("Max retries exceeded")` is raised —
the last failure is discarded. -/
def retry_action {α : Type} (action : Nat → Except String α) :
    Nat → Nat → RetryOutcome α × Nat
  | 0, calls => (RetryOutcome.raised "Max retries exceeded", calls)
  | n + 1, calls =>
      match action calls with
      | Except.ok a => (RetryOutcome.ok a, calls + 1)
      | Except.error _ => retry_action action n (calls + 1)

/-- Loop body of `retry(action, retries, delay)` (marriott.py:154-163),
threading `last_exc`. -/
def retryAux {α : Type} (action : Nat → Except String α) :
    Nat → Nat → Option String → RetryOutcome α × Nat
  | 0, calls, last =>
      ((match last with
        | some e => RetryOutcome.raised e
        | none => RetryOutcome.retNone), calls)
  | n + 1, calls, _ =>
      match action calls with
      | Except.ok a => (RetryOutcome.ok a, calls + 1)
      | Except.error e => retryAux action n (calls + 1) (some e)

/-- `retry(action, retries, delay)` (marriott.py:154-163): on exhaustion
`raise last_exc` if one was recorded, else fall through returning `None`. -/
def retry {α : Type} (action : Nat → Except String α) (retries : Nat) :
    RetryOutcome α × Nat :=
  retryAux action retries 0 none

/-- Loop body of the `retryable` decorator's wrapper (ihg.py:191-213),
threading `last_exc`. -/
def retryableAux {α : Type} (fn : Nat → Except String α) :
    Nat → Nat → Option String → RetryOutcome α × Nat
  | 0, calls, last =>
      ((match last with
        | some e => RetryOutcome.raised e
        | none =>
            RetryOutcome.raised
              "TypeError: exceptions must derive from BaseException"),
       calls)
  | n + 1, calls, _ =>
      match fn calls with
      | Except.ok a => (RetryOutcome.ok a, calls + 1)
      | Except.error e => retryableAux fn n (calls + 1) (some e)

/-- The `retryable(max_retries, refresh_on_fail)` wrapper (ihg.py:191-213):
after the loop it unconditionally executes `raise last_exc` (with
`max_retries = 0` that is Python's `raise None`, a `TypeError`). -/
def retryable {α : Type} (fn : Nat → Except String α) (max_retries : Nat) :
    RetryOutcome α × Nat :=
  retryableAux fn max_retries 0 none

theorem retryAux_fail {α : Type} (action : Nat → Except String α)
    (e : Nat → String) (hf : ∀ k, action k = Except.error (e k)) :
    ∀ n calls last, retryAux action (n + 1) calls last =
      (RetryOutcome.raised (e (calls + n)), calls + (n + 1)) := by
  intro n
  induction n with
  | zero =>
      intro calls last
      have hstep : retryAux action (0 + 1) calls last =
          (match action calls with
           | Except.ok a => (RetryOutcome.ok a, calls + 1)
           | Except.error e' => retryAux action 0 (calls + 1) (some e')) :=
        rfl
      rw [hstep, hf calls]
      rfl
  | succ m ih =>
      intro calls last
      have hstep : retryAux action (m + 1 + 1) calls last =
          (match action calls with
           | Except.ok a => (RetryOutcome.ok a, calls + 1)
           | Except.error e' =>
               retryAux action (m + 1) (calls + 1) (some e')) := rfl
      rw [hstep, hf calls]
      show retryAux action (m + 1) (calls + 1) (some (e calls)) =
        (RetryOutcome.raised (e (calls + (m + 1))), calls + (m + 1 + 1))
      rw [ih (calls + 1) (some (e calls))]
      rw [show calls + 1 + m = calls + (m + 1) from by omega,
        show calls + 1 + (m + 1) = calls + (m + 1 + 1) from by omega]

theorem retryableAux_fail {α : Type} (fn : Nat → Except String α)
    (e : Nat → String) (hf : ∀ k, fn k = Except.error (e k)) :
    ∀ n calls last, retryableAux fn (n + 1) calls last =
      (RetryOutcome.raised (e (calls + n)), calls + (n + 1)) := by
  intro n
  induction n with
  | zero =>
      intro calls last
      have hstep : retryableAux fn (0 + 1) calls last =
          (match fn calls with
           | Except.ok a => (RetryOutcome.ok a, calls + 1)
           | Except.error e' => retryableAux fn 0 (calls + 1) (some e')) :=
        rfl
      rw [hstep, hf calls]
      rfl
  | succ m ih =>
      intro calls last
      have hstep : retryableAux fn (m + 1 + 1) calls last =
          (match fn calls with
           | Except.ok a => (RetryOutcome.ok a, calls + 1)
           | Except.error e' =>
               retryableAux fn (m + 1) (calls + 1) (some e')) := rfl
      rw [hstep, hf calls]
      show retryableAux fn (m + 1) (calls + 1) (some (e calls)) =
        (RetryOutcome.raised (e (calls + (m + 1))), calls + (m + 1 + 1))
      rw [ih (calls + 1) (some (e calls))]
      rw [show calls + 1 + m = calls + (m + 1) from by omega,
        show calls + 1 + (m + 1) = calls + (m + 1 + 1) from by omega]

theorem retry_action_fail {α : Type} (action : Nat → Except String α)
    (e : Nat → String) (hf : ∀ k, action k = Except.error (e k)) :
    ∀ n calls, retry_action action (n + 1) calls =
      (RetryOutcome.raised "Max retries exceeded", calls + (n + 1)) := by
  intro n
  induction n with
  | zero =>
      intro calls
      have hstep : retry_action action (0 + 1) calls =
          (match action calls with
           | Except.ok a => (RetryOutcome.ok a, calls + 1)
           | Except.error _ => retry_action action 0 (calls + 1)) := rfl
      rw [hstep, hf calls]
      rfl
  | succ m ih =>
      intro calls
      have hstep : retry_action action (m + 1 + 1) calls =
          (match action calls with
           | Except.ok a => (RetryOutcome.ok a, calls + 1)
           | Except.error _ => retry_action action (m + 1) (calls + 1)) :=
        rfl
      rw [hstep, hf calls]
      show retry_action action (m + 1) (calls + 1) =
        (RetryOutcome.raised "Max retries exceeded", calls + (m + 1 + 1))
      rw [ih (calls + 1)]
      rw [show calls + 1 + (m + 1) = calls + (m + 1 + 1) from by omega]

/-- C3 (amended): for an operation that fails at every attempt and any
retry limit `n + 1 ≥ 1`, Marriott's `retry` and IHG's `retryable` invoke
the operation exactly `n + 1` times and then raise the failure of the last
attempt; Hilton's `retry_action` also invokes it exactly `n + 1` times,
but then raises a fresh generic `Exception("Max retries exceeded")` in
place of the last failure. -/
theorem C3_retry_exhaustion {α : Type} (action : Nat → Except String α)
    (e : Nat → String) (n : Nat)
    (hf : ∀ k, action k = Except.error (e k)) :
    retry action (n + 1) = (RetryOutcome.raised (e n), n + 1) ∧
    retryable action (n + 1) = (RetryOutcome.raised (e n), n + 1) ∧
    retry_action action (n + 1) 0 =
      (RetryOutcome.raised "Max retries exceeded", n + 1) := by
  refine ⟨?_, ?_, ?_⟩
  · unfold retry
    rw [retryAux_fail action e hf n 0 none]
    rw [Nat.zero_add, Nat.zero_add]
  · unfold retryable
    rw [retryableAux_fail action e hf n 0 none]
    rw [Nat.zero_add, Nat.zero_add]
  · rw [retry_action_fail action e hf n 0]
    rw [Nat.zero_add]

/-- An operation failing on every invocation with message `"boom"`. -/
def exFailingAction : Nat → Except String Unit := fun _ =>
  Except.error "boom"

/-- C3 witness: the exhaustion theorem at the concrete always-failing
operation with limit 3. -/
theorem C3_retry_exhaustion_witness :
    retry exFailingAction 3 = (RetryOutcome.raised "boom", 3) ∧
    retryable exFailingAction 3 = (RetryOutcome.raised "boom", 3) ∧
    retry_action exFailingAction 3 0 =
      (RetryOutcome.raised "Max retries exceeded", 3) :=
  C3_retry_exhaustion exFailingAction (fun _ => "boom") 2 (fun _ => rfl)

/-- C3 counterexample: with limit 3 and an operation that always raises
`"boom"`, Hilton's `retry_action` raises the substitute error
`"Max retries exceeded"`, not the last attempt's failure `"boom"` as the
claim states. -/
theorem C3_counterexample :
    retry_action exFailingAction 3 0 =
      (RetryOutcome.raised "Max retries exceeded", 3) ∧
    (RetryOutcome.raised "Max retries exceeded" : RetryOutcome Unit) ≠
      RetryOutcome.raised "boom" :=
  ⟨rfl, by decide⟩

/-! ## Backoff sleeps

Sleep durations are exact rationals.  A sleep that draws jitter is a
function of the attempt index and of the jitter sample the random source
produced; the possible samples of `random.uniform(0.2, 0.8)` are the
rationals of `[1/5, 4/5]`. -/

/-- Nominal (jitter-free) sleep of `backoff_sleep(try_idx)` (ihg.py:147-150):
`base = min(10, 2 ** try_idx)`. -/
def backoff_sleep_base (try_idx : Nat) : ℚ := min 10 (2 ^ try_idx)

/-- Total sleep of `backoff_sleep(try_idx)`:
`time.sleep(base + random.uniform(0.2, 0.8))`. -/
def backoff_sleep (try_idx : Nat) (jitter : ℚ) : ℚ :=
  backoff_sleep_base try_idx + jitter

/-- Sleep between attempts in `retry_action` (hilton.py:251):
`time.sleep(delay)` with the constant `delay` parameter (default 2).  It
ignores both the attempt index and any jitter sample. -/
def retry_action_sleep (delay : ℚ) (_i : Nat) (_jitter : ℚ) : ℚ := delay

/-- C8 (amended): IHG's `backoff_sleep` sleeps `min(10, 1 * 2^attempt)`
plus a jitter sample from `[0.2, 0.8]`, and its nominal delay is
monotonically non-decreasing in the attempt number; Hilton's
`retry_action` sleeps its constant `delay` parameter (2) between attempts,
independent of the attempt number and without jitter, which is trivially
non-decreasing. -/
theorem C8_backoff_shape (a : Nat) (j : ℚ) (h1 : 1/5 ≤ j) (h2 : j ≤ 4/5) :
    backoff_sleep a j = min 10 (1 * 2 ^ a) + j ∧
    backoff_sleep_base a ≤ backoff_sleep_base (a + 1) ∧
    backoff_sleep_base a + 1/5 ≤ backoff_sleep a j ∧
    backoff_sleep a j ≤ backoff_sleep_base a + 4/5 ∧
    retry_action_sleep 2 a j = 2 ∧
    retry_action_sleep 2 a j ≤ retry_action_sleep 2 (a + 1) j := by
  refine ⟨by simp [backoff_sleep, backoff_sleep_base], ?_, ?_, ?_, rfl,
    le_refl _⟩
  · unfold backoff_sleep_base
    refine min_le_min (le_refl _) ?_
    exact pow_le_pow_right₀ (by norm_num) (Nat.le_succ a)
  · unfold backoff_sleep
    linarith
  · unfold backoff_sleep
    linarith

/-- C8 witness: the backoff-shape theorem at attempt 0 with jitter 1/2. -/
theorem C8_backoff_shape_witness :
    backoff_sleep 0 (1/2) = min 10 (1 * 2 ^ (0 : Nat)) + 1/2 :=
  (C8_backoff_shape 0 (1/2) (by norm_num) (by norm_num)).1

/-- C8 counterexample: no cap and base delay make Hilton's inter-attempt
sleep equal to `min(cap, base_delay * 2^attempt)` plus the jitter sample:
`retry_action` sleeps exactly its constant `delay` (2) whatever jitter the
random source would produce, so the required equality fails already at
attempt 0 for two different samples. -/
theorem C8_counterexample :
    ¬ ∃ cap base : ℚ, ∀ j : ℚ, 1/5 ≤ j → j ≤ 4/5 →
      retry_action_sleep 2 0 j = min cap (base * 2 ^ (0 : Nat)) + j := by
  rintro ⟨cap, base, hj⟩
  have ha := hj (1/5) (le_refl _) (by norm_num)
  have hb := hj (4/5) (by norm_num) (le_refl _)
  simp only [retry_action_sleep] at ha hb
  have : (1 : ℚ)/5 = 4/5 := by linarith
  norm_num at this

/-! ## Persisted-file writes

A save routine is modelled as the list of primitive file-system steps it
performs on its target path.  `contentAfter orig steps` is the target
file's content after the steps have run against a file currently holding
`orig`; a crash in mid-save corresponds to executing only a prefix of the
steps. -/

inductive WriteStep where
  | openTruncate : WriteStep
  | writeAll : String → WriteStep
  | renameInto : String → WriteStep
deriving DecidableEq, Repr

/-- `save_state(location_idx, page, hotel_idx)` (hilton.py:121-127):
`open(STATE_FILE, "w")` truncates the target in place, then `json.dump`
writes the serialized state `doc`.  No temporary file, no rename. -/
def save_state_steps (doc : String) : List WriteStep :=
  [WriteStep.openTruncate, WriteStep.writeAll doc]

/-- `Checkpoint.save(idx)` (hyatt.py:108-111): the same direct
truncate-then-write on the checkpoint path. -/
def checkpoint_save_steps (doc : String) : List WriteStep :=
  [WriteStep.openTruncate, WriteStep.writeAll doc]

/-- The JSON write of `save_outputs(records)` (ihg.py:1072-1078): the same
direct truncate-then-write on `HOTEL_JSON`. -/
def save_outputs_json_steps (doc : String) : List WriteStep :=
  [WriteStep.openTruncate, WriteStep.writeAll doc]

def contentAfter (orig : String) : List WriteStep → String
  | [] => orig
  | WriteStep.openTruncate :: rest => contentAfter "" rest
  | WriteStep.writeAll s :: rest => contentAfter s rest
  | WriteStep.renameInto s :: rest => contentAfter s rest

def usesRename (steps : List WriteStep) : Bool :=
  steps.any fun s =>
    match s with
    | WriteStep.renameInto _ => true
    | _ => false

/-- The claim's property of one save: at every crash point the persisted
file holds either the original or the final complete document. -/
def atomicNoPartial (orig : String) (steps : List WriteStep) : Prop :=
  ∀ k, contentAfter orig (steps.take k) = orig ∨
    contentAfter orig (steps.take k) = contentAfter orig steps

/-- C9 (amended): none of the modelled saves (Hilton `save_state`, Hyatt
`Checkpoint.save`, the IHG `save_outputs` JSON write) uses a temporary
file with an atomic rename; each opens the target with mode `"w"` —
truncating it — and then writes the document, so a crash between the
truncating open and the completed write leaves an empty (truncated) file,
while an uninterrupted save leaves the full document. -/
theorem C9_direct_writes (orig doc : String) :
    usesRename (save_state_steps doc) = false ∧
    usesRename (checkpoint_save_steps doc) = false ∧
    usesRename (save_outputs_json_steps doc) = false ∧
    contentAfter orig ((save_state_steps doc).take 1) = "" ∧
    contentAfter orig ((checkpoint_save_steps doc).take 1) = "" ∧
    contentAfter orig ((save_outputs_json_steps doc).take 1) = "" ∧
    contentAfter orig (save_state_steps doc) = doc ∧
    contentAfter orig (checkpoint_save_steps doc) = doc ∧
    contentAfter orig (save_outputs_json_steps doc) = doc :=
  ⟨rfl, rfl, rfl, rfl, rfl, rfl, rfl, rfl, rfl⟩

/-- C9 counterexample: the checkpoint save is not an atomic temp-file
replacement — crashing after the truncating open (prefix of length 1)
leaves the file empty, which is neither the previous document `"[0]"` nor
the new document `"[1]"`. -/
theorem C9_counterexample :
    usesRename (save_state_steps "[1]") = false ∧
    ¬ atomicNoPartial "[0]" (save_state_steps "[1]") := by
  refine ⟨rfl, fun h => ?_⟩
  rcases h 1 with h1 | h1
  · exact absurd h1 (by decide)
  · exact absurd h1 (by decide)

/-! ## Hilton resume walk

The DOM layer is abstracted to input data: a location is the list of its
pages (in presentation order) and a page is the list of its hotel cards.
The loops below are the `for loc_idx, loc in enumerate(locations)`,
`while True` page loop and `for i, btn in enumerate(buttons)` card loop of
hilton `main()` (hilton.py:287-494), keeping only which cards are
processed.  For the resume location the page counter is initialised to
`start_page`, for later locations to 1 (hilton.py:320-324); a card is
skipped exactly when
`loc_idx == start_location_idx and page == start_page and i < start_hotel_idx`
(hilton.py:339-345). -/

def hiltonCardLoop {α : Type} (locIdx startLoc page startPage
    startHotel : Nat) : List α → Nat → List α
  | [], _ => []
  | b :: rest, i =>
      if locIdx = startLoc ∧ page = startPage ∧ i < startHotel then
        hiltonCardLoop locIdx startLoc page startPage startHotel rest (i + 1)
      else
        b :: hiltonCardLoop locIdx startLoc page startPage startHotel rest
          (i + 1)

def hiltonPageLoop {α : Type} (locIdx startLoc startPage startHotel : Nat) :
    List (List α) → Nat → List α
  | [], _ => []
  | pg :: rest, page =>
      hiltonCardLoop locIdx startLoc page startPage startHotel pg 0 ++
        hiltonPageLoop locIdx startLoc startPage startHotel rest (page + 1)

def hiltonLocLoop {α : Type} (startLoc startPage startHotel : Nat) :
    List (List (List α)) → Nat → List α
  | [], _ => []
  | loc :: rest, locIdx =>
      (if locIdx < startLoc then []
       else hiltonPageLoop locIdx startLoc startPage startHotel loc
          (if locIdx = startLoc then startPage else 1)) ++
        hiltonLocLoop startLoc startPage startHotel rest (locIdx + 1)

/-- The cards hilton `main()` processes when resuming from the saved state
`(start_location_idx, start_page, start_hotel_idx)`. -/
def hilton_main_walk {α : Type} (locations : List (List (List α)))
    (startLoc startPage startHotel : Nat) : List α :=
  hiltonLocLoop startLoc startPage startHotel locations 0

/-- The claim's description of the resumed walk: collections before `c`
are skipped entirely, the first visited page of collection `c` loses its
first `n` items, and everything later is processed in full. -/
def resumeSkipSpec {α : Type} (collections : List (List (List α)))
    (c n : Nat) : List α :=
  match collections.drop c with
  | [] => []
  | loc :: rest =>
      (match loc with
       | [] => []
       | pg :: pgs => pg.drop n ++ pgs.flatten) ++ (rest.map List.flatten).flatten

/-! ## IHG resume walk and checkpoint lifecycle -/

/-- The `for idx, card in enumerate(cards, start=0)` loop of
`scrape_city` (ihg.py:397-399): cards with `idx < resume_hotel_index` are
skipped. -/
def scrapeCityCards {α : Type} : List α → Nat → Nat → List α
  | [], _, _ => []
  | c :: rest, idx, resume =>
      (if idx < resume then [] else [c]) ++
        scrapeCityCards rest (idx + 1) resume

/-- `scrape_city(city, resume_hotel_index)` reduced to the cards it
processes. -/
def scrape_city {α : Type} (cards : List α) (resume_hotel_index : Nat) :
    List α :=
  scrapeCityCards cards 0 resume_hotel_index

/-- The persisted state of ihg's `CheckpointManager` (ihg.py:252-285). -/
structure IhgCk where
  city_index : Nat
  hotel_index : Nat
deriving DecidableEq, Repr

/-- The city loop of ihg `main()` (ihg.py:1114-1167).  Cities with index
below the loaded `city_index` are skipped before any checkpoint write
(ihg.py:1127); otherwise `set_city(i)` followed by `set_hotel(0)` persists
`(i, 0)`, the city's cards are scraped with the resume index (equal to the
loaded `hotel_index` only for the resume city, ihg.py:1134), and
`crashAfter = some i` models the only uncaught error exit of a processed
city — `restart_browser` raising after the city was saved (`scrape_city`
errors are swallowed at ihg.py:1136-1140).  When the loop finishes,
`checkpoint.clear()` persists `(0, 0)` (ihg.py:1167).  Returns the
processed cards, the final persisted checkpoint and whether the run
crashed. -/
def ihgMainGo {α : Type} (startCity startHotel : Nat)
    (crashAfter : Option Nat) :
    List (List α) → Nat → IhgCk → List α × IhgCk × Bool
  | [], _, _ => ([], ⟨0, 0⟩, false)
  | city :: rest, i, ck =>
      if i < startCity then
        ihgMainGo startCity startHotel crashAfter rest (i + 1) ck
      else
        let ck1 : IhgCk := ⟨i, 0⟩
        let hotels := scrape_city city (if i = startCity then startHotel
          else 0)
        if crashAfter = some i then (hotels, ck1, true)
        else
          let r := ihgMainGo startCity startHotel crashAfter rest (i + 1) ck1
          (hotels ++ r.1, r.2)

/-- ihg `main()` from a loaded checkpoint `start`. -/
def ihg_main {α : Type} (cities : List (List α)) (start : IhgCk)
    (crashAfter : Option Nat) : List α × IhgCk × Bool :=
  ihgMainGo start.city_index start.hotel_index crashAfter cities 0 start

/-- The claim's description of the resumed ihg walk. -/
def ihgResumeSpec {α : Type} (cities : List (List α)) (c n : Nat) :
    List α :=
  match cities.drop c with
  | [] => []
  | city :: rest => city.drop n ++ rest.flatten

/-! ## Hyatt run

A hotel card is abstracted to the `href` of its title link (`""` stands
for a missing/falsy url) plus whether scraping it raises an exception not
caught by the inner `except (StaleElementReferenceException,
NoSuchElementException)` handler; existing output records are abstracted
to their `hotel_url` field, the only field the dedupe logic reads. -/

structure HyattCard where
  url : String
  fatal : Bool
deriving DecidableEq, Repr

/-- `scraped_urls = set of h["hotel_url"] for h in existing if
h.get("hotel_url")` (hyatt.py:210): falsy urls are omitted. -/
def scrapedInit (existing : List String) : List String :=
  existing.filter (fun u => u ≠ "")

/-- The card loop of hyatt `main()` (hyatt.py:222-265).  A card whose url
is in `scraped` is skipped with `hotel_index += 1; checkpoint.save(...)`
(hyatt.py:233-236); a successful card appends its record, adds its url to
the set, rewrites the output and saves the incremented index
(hyatt.py:252-259); a fatal card aborts the loop before any further save.
Returns the urls appended this run, the last saved checkpoint index and
whether the run crashed. -/
def hyattRun : List String → List HyattCard → Nat → Nat →
    List String × Nat × Bool
  | _, [], _, ck => ([], ck, false)
  | scraped, c :: rest, i, ck =>
      if c.url ∈ scraped then hyattRun scraped rest (i + 1) (i + 1)
      else if c.fatal then ([], ck, true)
      else
        let r := hyattRun (c.url :: scraped) rest (i + 1) (i + 1)
        (c.url :: r.1, r.2)

structure HyattOutcome where
  results : List String
  lastSaved : Nat
  persisted : Nat
  crashed : Bool
deriving DecidableEq, Repr

/-- hyatt `main()` (hyatt.py:202-292): results start as the existing
records; the card loop runs; the `finally` block (hyatt.py:282-284)
executes `checkpoint.clear()` on BOTH the success and the error exit, so
the persisted index is 0 regardless of the outcome. -/
def hyatt_main (existing : List String) (cards : List HyattCard) :
    HyattOutcome :=
  let r := hyattRun (scrapedInit existing) cards 0 0
  { results := existing ++ r.1
    lastSaved := r.2.1
    persisted := 0
    crashed := r.2.2 }

/-! ### Hilton walk lemmas -/

theorem hiltonCardLoop_resume {α : Type} (c p n : Nat) :
    ∀ (btns : List α) (i : Nat),
      hiltonCardLoop c c p p n btns i = btns.drop (n - i) := by
  intro btns
  induction btns with
  | nil => intro i; simp [hiltonCardLoop, List.drop_nil]
  | cons b rest ih =>
      intro i
      have hstep : hiltonCardLoop c c p p n (b :: rest) i =
          (if c = c ∧ p = p ∧ i < n then
            hiltonCardLoop c c p p n rest (i + 1)
          else b :: hiltonCardLoop c c p p n rest (i + 1)) := rfl
      by_cases hi : i < n
      · rw [hstep, if_pos ⟨rfl, rfl, hi⟩, ih (i + 1),
          show n - i = (n - (i + 1)) + 1 from by omega, List.drop_succ_cons]
      · rw [hstep, if_neg (fun hc => hi hc.2.2), ih (i + 1),
          show n - (i + 1) = 0 from by omega,
          show n - i = 0 from by omega]
        simp

theorem hiltonCardLoop_all {α : Type} (locIdx sl page sp n : Nat)
    (h : ¬(locIdx = sl ∧ page = sp)) :
    ∀ (btns : List α) (i : Nat),
      hiltonCardLoop locIdx sl page sp n btns i = btns := by
  intro btns
  induction btns with
  | nil => intro i; rfl
  | cons b rest ih =>
      intro i
      have hstep : hiltonCardLoop locIdx sl page sp n (b :: rest) i =
          (if locIdx = sl ∧ page = sp ∧ i < n then
            hiltonCardLoop locIdx sl page sp n rest (i + 1)
          else b :: hiltonCardLoop locIdx sl page sp n rest (i + 1)) := rfl
      rw [hstep, if_neg (fun hc => h ⟨hc.1, hc.2.1⟩), ih (i + 1)]

theorem hiltonPageLoop_other_loc {α : Type} (locIdx sl sp n : Nat)
    (h : locIdx ≠ sl) :
    ∀ (pages : List (List α)) (page : Nat),
      hiltonPageLoop locIdx sl sp n pages page = pages.flatten := by
  intro pages
  induction pages with
  | nil => intro page; rfl
  | cons pg rest ih =>
      intro page
      show hiltonCardLoop locIdx sl page sp n pg 0 ++
        hiltonPageLoop locIdx sl sp n rest (page + 1) = _
      rw [hiltonCardLoop_all locIdx sl page sp n (fun hc => h hc.1),
        ih (page + 1), List.flatten_cons]

theorem hiltonPageLoop_past_page {α : Type} (c sp n : Nat) :
    ∀ (pages : List (List α)) (page : Nat), sp < page →
      hiltonPageLoop c c sp n pages page = pages.flatten := by
  intro pages
  induction pages with
  | nil => intro page _; rfl
  | cons pg rest ih =>
      intro page hp
      show hiltonCardLoop c c page sp n pg 0 ++
        hiltonPageLoop c c sp n rest (page + 1) = _
      rw [hiltonCardLoop_all c c page sp n (fun hc => by omega),
        ih (page + 1) (by omega), List.flatten_cons]

theorem hiltonPageLoop_resume {α : Type} (c sp n : Nat)
    (loc : List (List α)) :
    hiltonPageLoop c c sp n loc sp =
      (match loc with
       | [] => []
       | pg :: pgs => pg.drop n ++ pgs.flatten) := by
  cases loc with
  | nil => rfl
  | cons pg pgs =>
      show hiltonCardLoop c c sp sp n pg 0 ++
        hiltonPageLoop c c sp n pgs (sp + 1) = _
      rw [hiltonCardLoop_resume c sp n pg 0, Nat.sub_zero,
        hiltonPageLoop_past_page c sp n pgs (sp + 1) (by omega)]

theorem hiltonLocLoop_past {α : Type} (c sp n : Nat) :
    ∀ (locs : List (List (List α))) (i : Nat), c < i →
      hiltonLocLoop c sp n locs i = (locs.map List.flatten).flatten := by
  intro locs
  induction locs with
  | nil => intro i _; rfl
  | cons loc rest ih =>
      intro i hi
      show (if i < c then []
         else hiltonPageLoop i c sp n loc (if i = c then sp else 1)) ++
        hiltonLocLoop c sp n rest (i + 1) = _
      rw [if_neg (by omega), if_neg (by omega : ¬i = c),
        hiltonPageLoop_other_loc i c sp n (by omega) loc 1,
        ih (i + 1) (by omega)]
      rfl

theorem hiltonLocLoop_spec {α : Type} (c sp n : Nat) :
    ∀ (locs : List (List (List α))) (i : Nat), i ≤ c →
      hiltonLocLoop c sp n locs i = resumeSkipSpec locs (c - i) n := by
  intro locs
  induction locs with
  | nil => intro i _; simp [hiltonLocLoop, resumeSkipSpec, List.drop_nil]
  | cons loc rest ih =>
      intro i hi
      by_cases hic : i = c
      · subst hic
        show (if i < i then []
           else hiltonPageLoop i i sp n loc (if i = i then sp else 1)) ++
          hiltonLocLoop i sp n rest (i + 1) = _
        rw [if_neg (lt_irrefl i), if_pos rfl,
          hiltonPageLoop_resume i sp n loc,
          hiltonLocLoop_past i sp n rest (i + 1) (by omega),
          show i - i = 0 from by omega]
        rfl
      · have hlt : i < c := by omega
        show (if i < c then []
           else hiltonPageLoop i c sp n loc (if i = c then sp else 1)) ++
          hiltonLocLoop c sp n rest (i + 1) = _
        rw [if_pos hlt, ih (i + 1) (by omega), List.nil_append]
        unfold resumeSkipSpec
        rw [show c - i = (c - (i + 1)) + 1 from by omega,
          List.drop_succ_cons]

/-! ### IHG walk lemmas -/

theorem scrapeCityCards_drop {α : Type} (resume : Nat) :
    ∀ (cards : List α) (idx : Nat),
      scrapeCityCards cards idx resume = cards.drop (resume - idx) := by
  intro cards
  induction cards with
  | nil => intro idx; simp [scrapeCityCards, List.drop_nil]
  | cons cd rest ih =>
      intro idx
      show (if idx < resume then [] else [cd]) ++
        scrapeCityCards rest (idx + 1) resume = _
      by_cases hi : idx < resume
      · rw [if_pos hi, List.nil_append, ih (idx + 1),
          show resume - idx = (resume - (idx + 1)) + 1 from by omega,
          List.drop_succ_cons]
      · rw [if_neg hi, ih (idx + 1),
          show resume - (idx + 1) = 0 from by omega,
          show resume - idx = 0 from by omega]
        simp

theorem ihgMainGo_step {α : Type} (sc sh : Nat) (crashAfter : Option Nat)
    (city : List α) (rest : List (List α)) (i : Nat) (ck : IhgCk) :
    ihgMainGo sc sh crashAfter (city :: rest) i ck =
      (if i < sc then ihgMainGo sc sh crashAfter rest (i + 1) ck
       else
         let hotels := scrape_city city (if i = sc then sh else 0)
         if crashAfter = some i then (hotels, ⟨i, 0⟩, true)
         else
           let r := ihgMainGo sc sh crashAfter rest (i + 1) ⟨i, 0⟩
           (hotels ++ r.1, r.2)) := rfl

theorem ihgMainGo_past {α : Type} (sc sh : Nat) :
    ∀ (cities : List (List α)) (i : Nat) (ck : IhgCk), sc < i →
      (ihgMainGo sc sh none cities i ck).1 = cities.flatten := by
  intro cities
  induction cities with
  | nil => intro i _ _; rfl
  | cons city rest ih =>
      intro i ck hi
      rw [ihgMainGo_step, if_neg (by omega : ¬i < sc)]
      simp only [if_neg (by simp : ¬(none : Option Nat) = some i),
        if_neg (by omega : ¬i = sc)]
      unfold scrape_city
      rw [scrapeCityCards_drop 0 city 0, Nat.sub_zero,
        List.drop_zero, ih (i + 1) ⟨i, 0⟩ (by omega), List.flatten_cons]

theorem ihgMainGo_spec {α : Type} (sc sh : Nat) :
    ∀ (cities : List (List α)) (i : Nat) (ck : IhgCk), i ≤ sc →
      (ihgMainGo sc sh none cities i ck).1 =
        ihgResumeSpec cities (sc - i) sh := by
  intro cities
  induction cities with
  | nil => intro i _ _; simp [ihgMainGo, ihgResumeSpec, List.drop_nil]
  | cons city rest ih =>
      intro i ck hi
      by_cases hic : i = sc
      · rw [ihgMainGo_step, if_neg (by omega : ¬i < sc), if_pos hic,
          if_neg (by simp : ¬(none : Option Nat) = some i)]
        subst hic
        unfold scrape_city
        rw [scrapeCityCards_drop sh city 0, Nat.sub_zero]
        show List.drop sh city ++
          (ihgMainGo i sh none rest (i + 1) ⟨i, 0⟩).1 =
          ihgResumeSpec (city :: rest) (i - i) sh
        rw [ihgMainGo_past i sh rest (i + 1) ⟨i, 0⟩ (by omega),
          show i - i = 0 from by omega]
        rfl
      · have hlt : i < sc := by omega
        rw [ihgMainGo_step, if_pos hlt, ih (i + 1) ck (by omega)]
        unfold ihgResumeSpec
        rw [show sc - i = (sc - (i + 1)) + 1 from by omega,
          List.drop_succ_cons]

theorem ihgMainGo_none_clears {α : Type} (sc sh : Nat) :
    ∀ (cities : List (List α)) (i : Nat) (ck : IhgCk),
      (ihgMainGo sc sh none cities i ck).2 = (⟨0, 0⟩, false) := by
  intro cities
  induction cities with
  | nil => intro i ck; rfl
  | cons city rest ih =>
      intro i ck
      rw [ihgMainGo_step]
      by_cases hi : i < sc
      · rw [if_pos hi]
        exact ih (i + 1) ck
      · rw [if_neg hi]
        simp only [if_neg (by simp : ¬(none : Option Nat) = some i)]
        exact ih (i + 1) ⟨i, 0⟩

theorem ihgMainGo_crash {α : Type} (sc sh k : Nat) (hsc : sc ≤ k) :
    ∀ (cities : List (List α)) (i : Nat) (ck : IhgCk),
      i ≤ k → k < i + cities.length →
      (ihgMainGo sc sh (some k) cities i ck).2 = (⟨k, 0⟩, true) := by
  intro cities
  induction cities with
  | nil =>
      intro i _ h1 h2
      simp only [List.length_nil] at h2
      omega
  | cons city rest ih =>
      intro i ck h1 h2
      rw [ihgMainGo_step]
      by_cases hi : i < sc
      · rw [if_pos hi]
        exact ih (i + 1) ck (by omega) (by
          simp only [List.length_cons] at h2
          omega)
      · rw [if_neg hi]
        by_cases hk : k = i
        · rw [if_pos (by rw [hk] : (some k : Option Nat) = some i)]
          subst hk
          rfl
        · rw [if_neg (fun hco => hk (Option.some.inj hco))]
          exact ih (i + 1) ⟨i, 0⟩ (by omega) (by
            simp only [List.length_cons] at h2
            omega)

/-! ### Hyatt run lemmas -/

theorem hyattRun_skip (scraped : List String) (c : HyattCard)
    (rest : List HyattCard) (i ck : Nat) (h : c.url ∈ scraped) :
    hyattRun scraped (c :: rest) i ck =
      hyattRun scraped rest (i + 1) (i + 1) := by
  simp [hyattRun, h]

/-- Every url appended during a run was not in the scraped-url set the run
started from, and is appended exactly once. -/
theorem hyattRun_fresh :
    ∀ (cards : List HyattCard) (scraped : List String) (i ck : Nat)
      (u : String), u ∈ (hyattRun scraped cards i ck).1 →
      u ∉ scraped ∧ (hyattRun scraped cards i ck).1.count u = 1 := by
  intro cards
  induction cards with
  | nil => intro scraped i ck u hu; simp [hyattRun] at hu
  | cons c rest ih =>
      intro scraped i ck u hu
      by_cases hmem : c.url ∈ scraped
      · rw [hyattRun_skip scraped c rest i ck hmem] at hu ⊢
        exact ih scraped (i + 1) (i + 1) u hu
      · by_cases hf : c.fatal = true
        · have hnil : (hyattRun scraped (c :: rest) i ck).1 = [] := by
            simp [hyattRun, hmem, hf]
          rw [hnil] at hu
          simp at hu
        · have hstep : hyattRun scraped (c :: rest) i ck =
              (c.url :: (hyattRun (c.url :: scraped) rest (i + 1)
                  (i + 1)).1,
               (hyattRun (c.url :: scraped) rest (i + 1) (i + 1)).2) := by
            simp [hyattRun, hmem, hf]
          rw [hstep] at hu ⊢
          rcases List.mem_cons.mp hu with he | hm
          · subst he
            refine ⟨hmem, ?_⟩
            have hnot : c.url ∉
                (hyattRun (c.url :: scraped) rest (i + 1) (i + 1)).1 := by
              intro hin
              exact (ih _ (i + 1) (i + 1) c.url hin).1
                (List.mem_cons_self _ _)
            have h0 : (hyattRun (c.url :: scraped) rest (i + 1)
                (i + 1)).1.count c.url = 0 := List.count_eq_zero.mpr hnot
            show ((c.url :: (hyattRun (c.url :: scraped) rest (i + 1)
              (i + 1)).1).count c.url) = 1
            rw [List.count_cons_self, h0]
          · obtain ⟨hns, hcnt⟩ := ih _ (i + 1) (i + 1) u hm
            have hne : u ≠ c.url := fun he =>
              hns (he ▸ List.mem_cons_self _ _)
            refine ⟨fun hin => hns (List.mem_cons_of_mem _ hin), ?_⟩
            show ((c.url :: (hyattRun (c.url :: scraped) rest (i + 1)
              (i + 1)).1).count u) = 1
            rw [List.count_cons_of_ne hne, hcnt]

theorem not_mem_of_not_scrapedInit {existing : List String} {u : String}
    (hne : u ≠ "") (h : u ∉ scrapedInit existing) : u ∉ existing := by
  intro hin
  exact h (List.mem_filter.mpr ⟨hin, by simp [hne]⟩)

/-! ## Claim theorems on the walk models -/

/-- C5: resuming from saved position `(c, p, n)`, Hilton's `main` skips
every location before `c`, processes the first visited page of location
`c` from card index `n` onward and every later page and location in full;
IHG's `main` with loaded checkpoint `(c, n)` likewise skips cities before
`c`, scrapes city `c` from hotel index `n` onward, and scrapes every later
city in full. -/
theorem C5_resume_skip {α : Type} (locations : List (List (List α)))
    (cities : List (List α)) (c p n : Nat) :
    hilton_main_walk locations c p n = resumeSkipSpec locations c n ∧
    (ihg_main cities ⟨c, n⟩ none).1 = ihgResumeSpec cities c n := by
  constructor
  · unfold hilton_main_walk
    rw [hiltonLocLoop_spec c p n locations 0 (Nat.zero_le c),
      Nat.sub_zero]
  · unfold ihg_main
    rw [ihgMainGo_spec c n cities 0 ⟨c, n⟩ (Nat.zero_le c), Nat.sub_zero]

/-- C4 (amended): IHG's `main` clears the checkpoint only on full
successful completion — a completed run persists `(0, 0)` and a run that
terminates with an error after processing city `k` leaves the checkpoint
at the last saved value `(k, 0)`; Hyatt's `main`, however, runs
`checkpoint.clear()` in its `finally` block, so its persisted index is `0`
after every run, error-terminated runs included. -/
theorem C4_clear_on_completion {α : Type} (cities : List (List α))
    (start : IhgCk) (existing : List String) (cards : List HyattCard)
    (k : Nat) (hk1 : start.city_index ≤ k) (hk2 : k < cities.length) :
    (ihg_main cities start none).2 = (⟨0, 0⟩, false) ∧
    (ihg_main cities start (some k)).2 = (⟨k, 0⟩, true) ∧
    (hyatt_main existing cards).persisted = 0 := by
  refine ⟨?_, ?_, rfl⟩
  · exact ihgMainGo_none_clears _ _ cities 0 start
  · exact ihgMainGo_crash _ _ k hk1 cities 0 start (Nat.zero_le k)
      (by omega)

/-- C4 witness: a three-city IHG crawl resumed at city 1, with a crash
after city 1 in the error scenario, and an empty Hyatt run. -/
theorem C4_clear_on_completion_witness :
    (ihg_main [[0], [1], [2]] ⟨1, 0⟩ none).2 =
      ((⟨0, 0⟩ : IhgCk), false) ∧
    (ihg_main [[0], [1], [2]] ⟨1, 0⟩ (some 1)).2 =
      ((⟨1, 0⟩ : IhgCk), true) ∧
    (hyatt_main [] []).persisted = 0 :=
  C4_clear_on_completion [[0], [1], [2]] ⟨1, 0⟩ [] [] 1 (by decide)
    (by decide)

/-- A two-card Hyatt run whose second card raises an uncaught exception. -/
def exHyattCrash : List HyattCard := [⟨"a", false⟩, ⟨"b", true⟩]

/-- C4 counterexample: in the Hyatt run that crashes on its second card,
the last checkpoint value saved before the error is 1, yet the persisted
checkpoint after the run is 0 — the `finally` block cleared it — so an
error-terminated run does not leave the checkpoint at its last saved
value as the claim states. -/
theorem C4_counterexample :
    (hyatt_main [] exHyattCrash).crashed = true ∧
    (hyatt_main [] exHyattCrash).lastSaved = 1 ∧
    (hyatt_main [] exHyattCrash).persisted = 0 ∧
    (hyatt_main [] exHyattCrash).persisted ≠
      (hyatt_main [] exHyattCrash).lastSaved := by
  refine ⟨by decide, by decide, by decide, by decide⟩

/-- C10: a card whose url is in the scraped-url set is skipped — the run
appends nothing for it while the checkpoint index advances past it — and
every non-empty hotel url appended during a run occurs exactly once in the
run's final output (`existing` plus the appended records); a card with no
href (url `""`) has no hotel url and is outside the uniqueness statement,
matching the code's own `if h.get("hotel_url")` filter. -/
theorem C10_hyatt_dedupe (scraped existing : List String)
    (c : HyattCard) (cards : List HyattCard) (i ck : Nat) (u : String)
    (hskip : c.url ∈ scraped) (hu : u ≠ "")
    (hmem : u ∈ (hyattRun (scrapedInit existing) cards 0 0).1) :
    hyattRun scraped (c :: cards) i ck =
      hyattRun scraped cards (i + 1) (i + 1) ∧
    (hyatt_main existing cards).results.count u = 1 := by
  refine ⟨hyattRun_skip scraped c cards i ck hskip, ?_⟩
  obtain ⟨hns, hcnt⟩ := hyattRun_fresh cards (scrapedInit existing) 0 0 u
    hmem
  have hnotex : u ∉ existing := not_mem_of_not_scrapedInit hu hns
  show (existing ++
    (hyattRun (scrapedInit existing) cards 0 0).1).count u = 1
  rw [List.count_append, List.count_eq_zero.mpr hnotex, hcnt]

/-- A Hyatt run against one previously persisted url `"a"` and a card
list that revisits `"a"` and presents `"b"` twice. -/
def exHyattDedupe : List HyattCard :=
  [⟨"a", false⟩, ⟨"b", false⟩, ⟨"b", false⟩]

/-- C10 witness: the dedupe theorem at the concrete run. -/
theorem C10_hyatt_dedupe_witness :
    hyattRun ["a"] (⟨"a", false⟩ :: exHyattDedupe) 0 0 =
      hyattRun ["a"] exHyattDedupe 1 1 ∧
    (hyatt_main ["a"] exHyattDedupe).results.count "b" = 1 :=
  C10_hyatt_dedupe ["a"] ["a"] ⟨"a", false⟩ exHyattDedupe 0 0 "b"
    (by decide) (by decide) (by decide)

end Spec2Proof
